import Mathlib

/-!
Verification of the RDM content provider (`repo2docker/contentproviders/rdm.py`).

The provider parses a source URL into a project id, a sub-path and a host
configuration (`RDM.detect`), and fetches the corresponding remote directory
tree onto local disk while emitting progress lines (`RDM.fetch` and its async
helpers `RDM._fetch_with_error`, `RDM._fetch`, `RDM._fetch_storage`).

Python strings are modelled as Lean `String`s; the character-level operations
(`startswith`, `in`, slicing, `split("/", 1)`, `rstrip("/")`) are modelled on
the underlying character list (`String.data`).  File contents are byte lists
(`List Nat`).  Filesystem writes are recorded as `(path, content)` pairs, and
the progress queue of `fetch` is modelled as the list of items put into it.
-/

namespace RDM

/-- `pre` is a literal prefix of `s` (Python `s.startswith(pre)`). -/
def strStartsWith (s pre : String) : Bool :=
  pre.data.isPrefixOf s.data

/-- `suf` is a literal suffix of `s` (Python `s.endswith(suf)`). -/
def strEndsWith (s suf : String) : Bool :=
  suf.data.reverse.isPrefixOf s.data.reverse

/-- Python `c in s` for a single-character needle. -/
def strContains (s : String) (c : Char) : Bool :=
  decide (c ∈ s.data)

/-- Python `s[n:]`. -/
def strDrop (s : String) (n : Nat) : String :=
  String.mk (s.data.drop n)

/-- Python `s.rstrip("/")`. -/
def rstripSlash (s : String) : String :=
  String.mk (s.data.reverse.dropWhile (fun c => c = '/')).reverse

/-- The character test used to locate the first `'/'` of a path. -/
def neSlash (c : Char) : Bool :=
  c ≠ '/'

/-- The part of `s` before its first `'/'` (`s.split("/", 1)[0]`, or
`s[:s.index("/")]`). -/
def beforeFirstSlash (s : String) : String :=
  String.mk (s.data.takeWhile neSlash)

/-- The part of `s` after its first `'/'` (`s.split("/", 1)[1]`, or
`s[s.index("/") + 1:]`). -/
def afterFirstSlash (s : String) : String :=
  String.mk ((s.data.dropWhile neSlash).drop 1)

/-- Host configuration entry actually used by `detect` / `_fetch`:
`{"hostname": [...], "api": ..., "token": optional}`. -/
structure Host where
  hostname : List String
  api : String
  token : Option String
deriving Repr, DecidableEq

/-- `RDM.detect`, lines 51–59: parse the path portion of the source URL into
`(project_id, path)`.  The leading `/` of the URL path is stripped; if the
remainder contains a `/` it is split at the first one and a leading literal
`files/` of the second part is dropped; otherwise the whole path is the
project id and the sub-path is empty. -/
def parsePath (upath : String) : String × String :=
  let path := if strStartsWith upath "/" then strDrop upath 1 else upath
  if strContains path '/' then
    let pid := beforeFirstSlash path
    let sub := afterFirstSlash path
    let sub := if strStartsWith sub "files/" then strDrop sub ("files/".length) else sub
    (pid, sub)
  else
    (path, "")

/-- `RDM._check_ref_defined`: `ref` counts as defined iff it is present and is
not the sentinel `"HEAD"`. -/
def checkRefDefined (ref : Option String) : Bool :=
  match ref with
  | none => false
  | some r => if r = "HEAD" then false else true

/-- Line 60 of `detect`: the session id is the ref when defined, otherwise the
freshly generated `str(uuid.uuid1())`, which we pass in as `fresh`. -/
def sessionId (ref : Option String) (fresh : String) : String :=
  if checkRefDefined ref then ref.getD fresh else fresh

/-- The spec dictionary returned by `detect`. -/
structure DetectResult where
  project_id : String
  path : String
  host : Host
  uuid : String
deriving Repr, DecidableEq

/-- `RDM.detect`: try each configured host in order; on the first whose
hostname-prefix list matches `source`, parse the URL path and build the spec.
`urlPath` stands for `urlparse(source).path` (the stdlib URL parser is
external to the module), and `fresh` for `str(uuid.uuid1())`. -/
def detect (hosts : List Host) (source urlPath : String) (ref : Option String)
    (fresh : String) : Option DetectResult :=
  match hosts with
  | [] => none
  | host :: rest =>
    if host.hostname.any (fun s => strStartsWith source s) then
      let (pid, sub) := parsePath urlPath
      some ⟨pid, sub, host, sessionId ref fresh⟩
    else
      detect rest source urlPath ref fresh

/-- `RDM.content_id`: `"{project_id}-{uuid}"`. -/
def content_id (projectId uuidStr : String) : String :=
  projectId ++ "-" ++ uuidStr

/-- A remote file as seen through the storage client: a `name`, a remote
`path` (the client's `file_.path`) and its byte `content`. -/
structure RFile where
  name : String
  path : String
  content : List Nat
deriving Repr, DecidableEq

mutual
/-- A remote storage or folder: a `name`, the files directly under it and
the subfolders directly under it (`storage.files` / `storage.folders`). -/
inductive RTree where
  | node (name : String) (files : List RFile) (subs : RForest)
deriving Repr, DecidableEq

/-- A finite list of sibling folders (the client's folder listing). -/
inductive RForest where
  | nil
  | cons (t : RTree) (rest : RForest)
deriving Repr, DecidableEq
end

def RTree.name : RTree → String
  | .node n _ _ => n

def RTree.files : RTree → List RFile
  | .node _ fs _ => fs

def RTree.subs : RTree → RForest
  | .node _ _ s => s

def RForest.app : RForest → RForest → RForest
  | .nil, g => g
  | .cons t rest, g => .cons t (rest.app g)

/-- `os.path.join` for the relative paths this module builds (no component is
absolute, so `join` is concatenation with a separator). -/
def pathJoin (a b : String) : String :=
  a ++ "/" ++ b

/-- The name check of `_fetch_storage`, lines 136/147:
`"/" in name or "\\" in name`. -/
def hasSep (s : String) : Bool :=
  strContains s '/' || strContains s '\\'

/-- Errors the module can raise during a fetch. -/
inductive RdmError where
  /-- `ValueError` of `_fetch_storage` lines 137/148: a remote name contains a
  path separator. -/
  | invalidName (n : String)
  /-- The remote client's failure to resolve the project id. -/
  | projectNotFound (id : String)
  /-- The remote client's failure to resolve a storage by name. -/
  | storageNotFound (n : String)
  /-- `RuntimeError` of `_fetch` line 121: `find_by_path` returned `None`. -/
  | couldNotFindPath (p : String)
deriving Repr, DecidableEq

/-- The observable effects of a (partial) walk: progress lines put on the
queue, file writes performed, and the exception that aborted the walk, if
any.  Lines and writes record exactly what happened before the error. -/
structure FetchEvents where
  lines : List String
  writes : List (String × List Nat)
  err : Option RdmError
deriving Repr, DecidableEq

/-- The `Fetch:` progress line of `_fetch_storage` line 145. -/
def fetchLine (remotePath localPath outputDir : String) : String :=
  "Fetch: " ++ remotePath ++ " (" ++ localPath ++ " to " ++ outputDir ++ ")\n"

/-- `os.path.join(local_dir, name) if local_dir is not None else name`
(lines 138/149 of `_fetch_storage`). -/
def joinOpt (localDir : Option String) (name : String) : String :=
  match localDir with
  | some d => pathJoin d name
  | none => name

/-- The file loop of `_fetch_storage`, lines 135–145: for each file in order,
fail on a separator in its name, otherwise write its bytes to
`output_dir/local_path` and yield a `Fetch:` line.  An error truncates the
remaining iteration; earlier lines and writes stand. -/
def fetchFiles (files : List RFile) (outputDir : String) (localDir : Option String) :
    FetchEvents :=
  match files with
  | [] => ⟨[], [], none⟩
  | f :: rest =>
    if hasSep f.name then
      ⟨[], [], some (.invalidName f.name)⟩
    else
      let localPath := joinOpt localDir f.name
      let localFilePath := pathJoin outputDir localPath
      let r := fetchFiles rest outputDir localDir
      ⟨fetchLine f.path localPath outputDir :: r.lines,
       (localFilePath, f.content) :: r.writes, r.err⟩

mutual
/-- `RDM._fetch_storage`: walk `storage`, files first, then folders. -/
def fetchStorage (storage : RTree) (outputDir : String) (localDir : Option String) :
    FetchEvents :=
  match storage with
  | .node _ files subs =>
    let fres := fetchFiles files outputDir localDir
    match fres.err with
    | some e => ⟨fres.lines, fres.writes, some e⟩
    | none =>
      let sres := fetchFolders subs outputDir localDir
      ⟨fres.lines ++ sres.lines, fres.writes ++ sres.writes, sres.err⟩

/-- The folder loop of `_fetch_storage`, lines 146–151: for each folder in
order, fail on a separator in its name, otherwise recurse with the local
directory extended by the folder's name. -/
def fetchFolders (folders : RForest) (outputDir : String) (localDir : Option String) :
    FetchEvents :=
  match folders with
  | .nil => ⟨[], [], none⟩
  | .cons t rest =>
    if hasSep t.name then
      ⟨[], [], some (.invalidName t.name)⟩
    else
      let localFolderDir := joinOpt localDir t.name
      let r := fetchStorage t outputDir (some localFolderDir)
      match r.err with
      | some e => ⟨r.lines, r.writes, some e⟩
      | none =>
        let rs := fetchFolders rest outputDir localDir
        ⟨r.lines ++ rs.lines, r.writes ++ rs.writes, rs.err⟩
end

/-- A remote project: the storages it exposes, in listing order
(`project.storages`). -/
structure Project where
  storages : List RTree
deriving Repr, DecidableEq

/-- The remote service as seen through the client: which project, if any,
each project id resolves to (`osf.project(project_id)`). -/
def Remote : Type := String → Option Project

/-- Modelled from the spec: the client's `project.storage(name)` — "Resolve
the named storage under the project"; its lookup by name is external to this
module (it lives in the `osfclient` library), failing when no storage of that
name exists. -/
def findStorage (project : Project) (name : String) : Option RTree :=
  project.storages.find? (fun s => s.name = name)

/-- Modelled from the spec: the client's `find_by_path(storage, path)` —
"descend into it by matching folder/file names path-segment by path-segment",
returning `None` "if any segment along `rest` does not exist in the remote
tree".  The function itself is external to this module (`osfclient.utils`). -/
def findByPath (t : RTree) (path : String) : Option RTree :=
  findByPathSegs t ((path.data.splitOn '/').map String.mk)
where
  findByPathSegs : RTree → List String → Option RTree
    | t, [] => some t
    | t, seg :: rest =>
      match findSub t.subs seg with
      | none => none
      | some c => findByPathSegs c rest
  findSub : RForest → String → Option RTree
    | .nil, _ => none
    | .cons t rest, seg => if t.name = seg then some t else findSub rest seg

/-- The empty-sub-path loop of `_fetch`, lines 125–127: walk every storage of
the project, each with its own name as the local directory.  An exception in
one storage aborts the remaining iteration. -/
def fetchStorages (storages : List RTree) (outputDir : String) : FetchEvents :=
  match storages with
  | [] => ⟨[], [], none⟩
  | s :: rest =>
    let r := fetchStorage s outputDir (some s.name)
    match r.err with
    | some e => ⟨r.lines, r.writes, some e⟩
    | none =>
      let rs := fetchStorages rest outputDir
      ⟨r.lines ++ rs.lines, r.writes ++ rs.writes, rs.err⟩

/-- Line 104 of `_fetch`: the api url with a single trailing `/` removed. -/
def apiUrlOf (host : Host) : String :=
  if strEndsWith host.api "/" then String.mk (host.api.data.dropLast) else host.api

/-- Lines 106–108 of `_fetch`: the initial progress line. -/
def mkHeader (projectId path : String) (host : Host) : String :=
  "Fetching RDM directory " ++ path ++ " on " ++ projectId ++ " at "
    ++ apiUrlOf host ++ ".\n"

/-- `RDM._fetch`: emit the header, resolve the project, resolve the sub-path
(storage, then `find_by_path` when the sub-path has more than one segment)
and walk the resolved root(s), collecting the progress lines put on the queue,
the file writes, and the first exception, if any. -/
def rdmFetch (spec : DetectResult) (outputDir : String) (remote : Remote) :
    FetchEvents :=
  let header := mkHeader spec.project_id spec.path spec.host
  match remote spec.project_id with
  | none => ⟨[header], [], some (.projectNotFound spec.project_id)⟩
  | some project =>
    if spec.path.length ≠ 0 then
      let p := rstripSlash spec.path
      let storageName := if strContains p '/' then beforeFirstSlash p else p
      match findStorage project storageName with
      | none => ⟨[header], [], some (.storageNotFound storageName)⟩
      | some storage =>
        if strContains p '/' then
          match findByPath storage (afterFirstSlash p) with
          | none => ⟨[header], [], some (.couldNotFindPath p)⟩
          | some node =>
            let w := fetchStorage node outputDir none
            ⟨header :: w.lines, w.writes, w.err⟩
        else
          let w := fetchStorage storage outputDir none
          ⟨header :: w.lines, w.writes, w.err⟩
    else
      let w := fetchStorages project.storages outputDir
      ⟨header :: w.lines, w.writes, w.err⟩

/-- An item of the `asyncio.Queue` of `fetch`: a progress line, an exception
put by `_fetch_with_error`'s `except` clause, or the `None` end marker put by
its `finally` clause. -/
inductive QItem where
  | line (s : String)
  | exn (e : RdmError)
  | done
deriving Repr, DecidableEq

/-- `RDM._fetch_with_error`: the queue contents produced by a fetch — every
progress line put by `_fetch` before the error, then the caught exception (if
any), then the `None` end marker. -/
def queueOf (ev : FetchEvents) : List QItem :=
  ev.lines.map QItem.line
    ++ (match ev.err with | some e => [QItem.exn e] | none => [])
    ++ [QItem.done]

/-- The consumer loop of `RDM.fetch`, lines 82–88: take items one at a time;
re-raise an exception item, stop at the `None` marker, otherwise yield the
line.  Returns the yielded lines and the raised exception, if any. -/
def drain (items : List QItem) : List String × Option RdmError :=
  match items with
  | [] => ([], none)
  | .line s :: rest =>
    let r := drain rest
    (s :: r.1, r.2)
  | .exn e :: _ => ([], some e)
  | .done :: _ => ([], none)

/-- `RDM.fetch`: the lines the generator yields and its terminal outcome. -/
def fetch (spec : DetectResult) (outputDir : String) (remote : Remote) :
    List String × Option RdmError :=
  drain (queueOf (rdmFetch spec outputDir remote))

/-! ### Host-configuration validation (`RDM.__init__`) -/

/-- A JSON value, as far as the validation of `__init__` inspects it. -/
inductive JVal where
  | str (s : String)
  | arr (xs : List JVal)
  | other
deriving Repr

/-- A host object of the configuration: whether the keys `"hostname"`,
`"api"` and `"token"` are present, and their JSON values. -/
structure RawHost where
  hostname : Option JVal
  api : Option JVal
  token : Option JVal
deriving Repr

/-- `isinstance(v, list)`. -/
def JVal.isArr : JVal → Bool
  | .arr _ => true
  | _ => false

/-- The per-host validation of `__init__`, lines 35–45: `"hostname"` must be
present and a list, `"api"` must be present.  Returns the `ValueError`
message on failure. -/
def validateHost (h : RawHost) : Except String Unit :=
  match h.hostname with
  | none => .error "No hostname"
  | some v =>
    if ¬ v.isArr then .error "hostname should be list of string"
    else
      match h.api with
      | none => .error "No api"
      | some _ => .ok ()

/-- The validation loop of `__init__`, lines 34–45, over a list-shaped hosts
configuration: the first failing host's error, else success. -/
def validateHosts (hs : List RawHost) : Except String Unit :=
  match hs with
  | [] => .ok ()
  | h :: rest =>
    match validateHost h with
    | .error e => .error e
    | .ok _ => validateHosts rest

mutual
/-- The local relative paths of the files of a tree, in walk order: files at
the root directly under their own name, files of a subfolder under the
folder's name.  Neither a storage name nor any sub-path segment occurs in
them unless a walk prefix is added on top. -/
def relPaths : RTree → List String
  | .node _ files subs => files.map (fun f => f.name) ++ relPathsF subs

/-- `relPaths` over a folder listing: each folder contributes its own relative
paths prefixed by its name. -/
def relPathsF : RForest → List String
  | .nil => []
  | .cons t rest => (relPaths t).map (fun q => pathJoin t.name q) ++ relPathsF rest
end

end RDM

namespace RDM

theorem strStartsWith_append (s t : String) : strStartsWith (s ++ t) s = true := by
  simp [strStartsWith, String.data_append, List.isPrefixOf_iff_prefix]

theorem content_id_inj (p a b : String) (h : content_id p a = content_id p b) : a = b := by
  unfold content_id at h
  have hd : (p ++ "-" ++ a).data = (p ++ "-" ++ b).data := by rw [h]
  simp only [String.data_append] at hd
  exact String.ext (List.append_cancel_left hd)

theorem sessionId_of_ref (r fresh : String) (h : r ≠ "HEAD") :
    sessionId (some r) fresh = r := by
  simp [sessionId, checkRefDefined, h]

theorem sessionId_none (fresh : String) : sessionId none fresh = fresh := rfl

theorem sessionId_head (fresh : String) : sessionId (some "HEAD") fresh = fresh := rfl

theorem drain_append_lines (ls : List String) (rest : List QItem) :
    drain (ls.map QItem.line ++ rest) = (ls ++ (drain rest).1, (drain rest).2) := by
  induction ls with
  | nil => simp
  | cons s t ih => simp [drain, ih]

theorem drain_queueOf (ev : FetchEvents) :
    drain (queueOf ev) = (ev.lines, ev.err) := by
  obtain ⟨ls, ws, err⟩ := ev
  simp only [queueOf, List.append_assoc]
  rw [drain_append_lines]
  cases err <;> simp [drain]

/-- C2: every progress line put on the queue before an exception is yielded by
`fetch` in order, and the exception (when there is one) is re-raised as the
terminal outcome; no item follows it and no error is swallowed. -/
theorem fetch_yields_lines_then_error (spec : DetectResult) (outputDir : String)
    (remote : Remote) :
    fetch spec outputDir remote
      = ((rdmFetch spec outputDir remote).lines, (rdmFetch spec outputDir remote).err) :=
  drain_queueOf _

/-- C4: a matched `detect` returns the supplied ref as session id exactly when
the ref is present and not `"HEAD"`; otherwise the freshly generated
identifier is used, so two calls with distinct fresh identifiers (as
`uuid.uuid1()` guarantees) never coincide. -/
theorem detect_sessionId (host : Host) (hs : List Host)
    (source upath fresh f1 f2 r : String) :
    (host.hostname.any (fun s => strStartsWith source s) = true →
      ∀ ref, (detect (host :: hs) source upath ref fresh).map DetectResult.uuid
        = some (sessionId ref fresh)) ∧
    (r ≠ "HEAD" → sessionId (some r) fresh = r) ∧
    (f1 ≠ f2 → sessionId none f1 ≠ sessionId none f2) ∧
    (f1 ≠ f2 → sessionId (some "HEAD") f1 ≠ sessionId (some "HEAD") f2) := by
  refine ⟨fun h ref => ?_, fun h => sessionId_of_ref r fresh h, fun h => ?_, fun h => ?_⟩
  · simp [detect, h]
  · simpa [sessionId_none] using h
  · simpa [sessionId_head] using h

/-- Witness for C4 at project-free concrete inputs. -/
theorem detect_sessionId_witness :
    (detect [⟨["https://h/"], "https://api.h/v2/", none⟩]
        "https://h/abc" "/abc" none "u1").map DetectResult.uuid = some "u1" ∧
    sessionId (some "v1") "u1" = "v1" ∧
    sessionId none "u1" ≠ sessionId none "u2" := by
  obtain ⟨h1, h2, h3, _h4⟩ :=
    detect_sessionId ⟨["https://h/"], "https://api.h/v2/", none⟩ []
      "https://h/abc" "/abc" "u1" "u1" "u2" "v1"
  exact ⟨h1 (by decide) none, h2 (by decide), h3 (by decide)⟩

/-- C8: `content_id` is the string `"<project_id>-<uuid>"`; with project
`"abc"` and explicit ref `"v1"` it is exactly `"abc-v1"`, and two refless
fetches with distinct fresh identifiers get distinct content ids. -/
theorem content_id_spec (p s fresh f1 f2 : String) :
    content_id "abc" (sessionId (some "v1") fresh) = "abc-v1" ∧
    content_id p s = p ++ "-" ++ s ∧
    (f1 ≠ f2 →
      content_id p (sessionId none f1) ≠ content_id p (sessionId none f2)) := by
  refine ⟨rfl, rfl, fun h hc => h ?_⟩
  simpa [sessionId_none] using content_id_inj p _ _ hc

/-- Witness for C8 at concrete inputs. -/
theorem content_id_spec_witness :
    content_id "abc" (sessionId (some "v1") "u1") = "abc-v1" ∧
    content_id "abc" (sessionId none "u1") ≠ content_id "abc" (sessionId none "u2") := by
  obtain ⟨h1, _h2, h3⟩ := content_id_spec "abc" "s" "u1" "u1" "u2"
  exact ⟨h1, h3 (by decide)⟩

/-- C7 counterexample: a host object with an empty `hostname` array and an
empty-string `api` passes the construction-time validation, so acceptance does
not imply a non-empty hostnames list or a non-empty api url. -/
theorem validateHosts_accepts_empty_hostnames :
    validateHosts [⟨some (JVal.arr []), some (JVal.str ""), none⟩] = Except.ok () := rfl

/-- C7 (amended): for a list-shaped configuration, construction fails exactly
when some host object misses `"hostname"`, has a non-array `"hostname"`, or
misses `"api"`; no non-emptiness check is performed. -/
theorem validateHost_spec (h : RawHost) (v w : JVal) (hs : List RawHost) :
    (h.hostname = none → validateHost h = .error "No hostname") ∧
    (h.hostname = some v → v.isArr = false →
      validateHost h = .error "hostname should be list of string") ∧
    (h.hostname = some v → v.isArr = true → h.api = none →
      validateHost h = .error "No api") ∧
    (h.hostname = some v → v.isArr = true → h.api = some w →
      validateHost h = .ok ()) ∧
    (validateHosts hs = .ok () ↔ ∀ x ∈ hs, validateHost x = .ok ()) := by
  obtain ⟨hn, ha, ht⟩ := h
  refine ⟨?_, ?_, ?_, ?_, ?_⟩
  · rintro rfl; rfl
  · rintro rfl hv; simp [validateHost, hv]
  · rintro rfl hv rfl; simp [validateHost, hv]
  · rintro rfl hv rfl; simp [validateHost, hv]
  · induction hs with
    | nil => simp [validateHosts]
    | cons x t ih =>
      simp only [validateHosts]
      cases hx : validateHost x with
      | error e => simp [hx]
      | ok u => simpa [hx] using ih

/-- Witness for C7's amended theorem: each validation outcome at a concrete
host object. -/
theorem validateHost_spec_witness :
    validateHost ⟨none, none, none⟩ = .error "No hostname" ∧
    validateHost ⟨some JVal.other, none, none⟩
      = .error "hostname should be list of string" ∧
    validateHost ⟨some (JVal.arr []), none, none⟩ = .error "No api" ∧
    validateHost ⟨some (JVal.arr []), some (JVal.str "x"), none⟩ = .ok () ∧
    validateHosts [] = .ok () := by
  refine ⟨(validateHost_spec ⟨none, none, none⟩ JVal.other JVal.other []).1 rfl,
    (validateHost_spec ⟨some JVal.other, none, none⟩ JVal.other JVal.other []).2.1 rfl rfl,
    (validateHost_spec ⟨some (JVal.arr []), none, none⟩ (JVal.arr []) JVal.other []).2.2.1
      rfl rfl rfl,
    (validateHost_spec ⟨some (JVal.arr []), some (JVal.str "x"), none⟩ (JVal.arr [])
      (JVal.str "x") []).2.2.2.1 rfl rfl rfl,
    (validateHost_spec ⟨none, none, none⟩ JVal.other JVal.other []).2.2.2.2.mpr (by simp)⟩

/-- C1: fetching a project with one storage `osfstorage` holding a file
`a.txt` and a folder `dir` holding `b.txt`, with an empty sub-path, writes
`osfstorage/a.txt` and `osfstorage/dir/b.txt` under the output directory with
the remote bytes unchanged, and yields exactly two `Fetch:` lines in
depth-first order (the file at a level before that level's subfolders), after
the header line. -/
theorem fetch_roundtrip (c1 c2 : List Nat) (p1 p2 out : String) :
    rdmFetch ⟨"abc", "", ⟨["https://h/"], "https://api.h/v2/", none⟩, "u"⟩ out
      (fun pid => if pid = "abc" then
        some ⟨[RTree.node "osfstorage" [⟨"a.txt", p1, c1⟩]
          (RForest.cons (RTree.node "dir" [⟨"b.txt", p2, c2⟩] RForest.nil)
            RForest.nil)]⟩
        else none)
      = ⟨["Fetching RDM directory  on abc at https://api.h/v2.\n",
          fetchLine p1 "osfstorage/a.txt" out,
          fetchLine p2 (pathJoin "osfstorage/dir" "b.txt") out],
         [(pathJoin out "osfstorage/a.txt", c1),
          (pathJoin out (pathJoin "osfstorage/dir" "b.txt"), c2)], none⟩ ∧
    fetch ⟨"abc", "", ⟨["https://h/"], "https://api.h/v2/", none⟩, "u"⟩ out
      (fun pid => if pid = "abc" then
        some ⟨[RTree.node "osfstorage" [⟨"a.txt", p1, c1⟩]
          (RForest.cons (RTree.node "dir" [⟨"b.txt", p2, c2⟩] RForest.nil)
            RForest.nil)]⟩
        else none)
      = (["Fetching RDM directory  on abc at https://api.h/v2.\n",
          fetchLine p1 "osfstorage/a.txt" out,
          fetchLine p2 (pathJoin "osfstorage/dir" "b.txt") out], none) :=
  ⟨rfl, rfl⟩

/-- C5: when the sub-path names an existing storage but some later segment
does not resolve in the remote tree, the fetch fails during resolution with
the path-lookup error as terminal item, after the header line only: no
`Fetch:` line is emitted and nothing is written. -/
theorem fetch_missing_segment (spec : DetectResult) (out : String) (remote : Remote)
    (project : Project) (storage : RTree)
    (hp : remote spec.project_id = some project)
    (hlen : spec.path.length ≠ 0)
    (hslash : strContains (rstripSlash spec.path) '/' = true)
    (hstor : findStorage project (beforeFirstSlash (rstripSlash spec.path)) = some storage)
    (hmiss : findByPath storage (afterFirstSlash (rstripSlash spec.path)) = none) :
    rdmFetch spec out remote
      = ⟨[mkHeader spec.project_id spec.path spec.host], [],
         some (.couldNotFindPath (rstripSlash spec.path))⟩ ∧
    fetch spec out remote
      = ([mkHeader spec.project_id spec.path spec.host],
         some (.couldNotFindPath (rstripSlash spec.path))) ∧
    (rdmFetch spec out remote).lines.all
      (fun l => !(strStartsWith l "Fetch: ")) = true := by
  have h1 : rdmFetch spec out remote
      = ⟨[mkHeader spec.project_id spec.path spec.host], [],
         some (.couldNotFindPath (rstripSlash spec.path))⟩ := by
    simp only [rdmFetch, hp, hslash, hstor, hmiss, if_true, ite_true]
    rw [if_pos hlen]
  have h2 : fetch spec out remote
      = ([mkHeader spec.project_id spec.path spec.host],
         some (.couldNotFindPath (rstripSlash spec.path))) := by
    rw [fetch, drain_queueOf, h1]
  refine ⟨h1, h2, ?_⟩
  rw [h1]
  simp only [List.all_cons, List.all_nil, Bool.and_true]
  have : strStartsWith (mkHeader spec.project_id spec.path spec.host) "Fetch: " = false := rfl
  simp [this]

/-- Witness for C5: a concrete project with storage `osfstorage` and no
`missing` folder, fetched at sub-path `osfstorage/missing/segment`. -/
theorem fetch_missing_segment_witness :
    rdmFetch ⟨"abc", "osfstorage/missing/segment",
        ⟨["https://h/"], "https://api.h/v2/", none⟩, "u"⟩ "out"
      (fun pid => if pid = "abc" then
        some ⟨[RTree.node "osfstorage" [⟨"a.txt", "/a.txt", [1]⟩] RForest.nil]⟩
        else none)
      = ⟨[mkHeader "abc" "osfstorage/missing/segment"
            ⟨["https://h/"], "https://api.h/v2/", none⟩], [],
         some (.couldNotFindPath (rstripSlash "osfstorage/missing/segment"))⟩ := by
  exact (fetch_missing_segment _ "out" _ ⟨[RTree.node "osfstorage"
      [⟨"a.txt", "/a.txt", [1]⟩] RForest.nil]⟩
      (RTree.node "osfstorage" [⟨"a.txt", "/a.txt", [1]⟩] RForest.nil)
      rfl (by decide) (by decide) (by decide) (by decide)).1

theorem fetchFiles_bad (pre : List RFile) (bad : RFile) (post : List RFile)
    (out : String) (ld : Option String)
    (hpre : ∀ f ∈ pre, hasSep f.name = false) (hbad : hasSep bad.name = true) :
    fetchFiles (pre ++ bad :: post) out ld
      = ⟨(fetchFiles pre out ld).lines, (fetchFiles pre out ld).writes,
         some (.invalidName bad.name)⟩ := by
  induction pre with
  | nil => simp [fetchFiles, hbad]
  | cons f t ih =>
    have hf : hasSep f.name = false := hpre f (List.mem_cons_self f t)
    have ht : ∀ g ∈ t, hasSep g.name = false :=
      fun g hg => hpre g (List.mem_cons_of_mem f hg)
    simp [fetchFiles, hf, ih ht]

theorem fetchFolders_err_none (t : RTree) (rest : RForest) (out : String)
    (ld : Option String) (h : (fetchFolders (.cons t rest) out ld).err = none) :
    hasSep t.name = false ∧
    (fetchStorage t out (some (joinOpt ld t.name))).err = none ∧
    (fetchFolders rest out ld).err = none := by
  by_cases hs : hasSep t.name = true
  · simp [fetchFolders, hs] at h
  · simp only [Bool.not_eq_true] at hs
    refine ⟨hs, ?_⟩
    cases hr : (fetchStorage t out (some (joinOpt ld t.name))).err with
    | some e => simp [fetchFolders, hs, hr] at h
    | none => simpa [fetchFolders, hs, hr] using h

theorem fetchFolders_bad : ∀ (fpre : RForest) (badf : RTree) (fpost : RForest)
    (out : String) (ld : Option String),
    (fetchFolders fpre out ld).err = none → hasSep badf.name = true →
    fetchFolders (fpre.app (.cons badf fpost)) out ld
      = ⟨(fetchFolders fpre out ld).lines, (fetchFolders fpre out ld).writes,
         some (.invalidName badf.name)⟩
  | .nil, badf, fpost, out, ld, _hpre, hbad => by
    simp [RForest.app, fetchFolders, hbad]
  | .cons t rest, badf, fpost, out, ld, hpre, hbad => by
    obtain ⟨hs, hr, hrest⟩ := fetchFolders_err_none t rest out ld hpre
    simp [RForest.app, fetchFolders, hs, hr,
      fetchFolders_bad rest badf fpost out ld hrest hbad]

/-- C6: a path separator in a remote file or folder name aborts the walk at
that entry with an invalid-name error: only the lines and writes of the
entries that precede it in walk order (files of the level first, then earlier
folders) are produced, and nothing is written for the offending entry or any
later one. -/
theorem fetch_invalid_name_aborts (nm : String) (pre : List RFile) (bad : RFile)
    (post : List RFile) (subs : RForest) (files : List RFile) (fpre : RForest)
    (badf : RTree) (fpost : RForest) (out : String) (ld : Option String)
    (hpre : ∀ f ∈ pre, hasSep f.name = false)
    (hbad : hasSep bad.name = true)
    (hfiles : (fetchFiles files out ld).err = none)
    (hfpre : (fetchFolders fpre out ld).err = none)
    (hbadf : hasSep badf.name = true) :
    fetchStorage (.node nm (pre ++ bad :: post) subs) out ld
      = ⟨(fetchFiles pre out ld).lines, (fetchFiles pre out ld).writes,
         some (.invalidName bad.name)⟩ ∧
    fetchStorage (.node nm files (fpre.app (.cons badf fpost))) out ld
      = ⟨(fetchFiles files out ld).lines ++ (fetchFolders fpre out ld).lines,
         (fetchFiles files out ld).writes ++ (fetchFolders fpre out ld).writes,
         some (.invalidName badf.name)⟩ := by
  constructor
  · simp [fetchStorage, fetchFiles_bad pre bad post out ld hpre hbad]
  · simp [fetchStorage, hfiles,
      fetchFolders_bad fpre badf fpost out ld hfpre hbadf]

/-- Witness for C6: one storage with a good file before a bad-named file, and
one with a good file before a bad-named folder. -/
theorem fetch_invalid_name_aborts_witness :
    fetchStorage (.node "osfstorage" [⟨"a.txt", "/a.txt", [1]⟩,
        ⟨"x/y", "/x", [2]⟩, ⟨"z.txt", "/z", [3]⟩] RForest.nil) "out" none
      = ⟨(fetchFiles [⟨"a.txt", "/a.txt", [1]⟩] "out" none).lines,
         (fetchFiles [⟨"a.txt", "/a.txt", [1]⟩] "out" none).writes,
         some (.invalidName "x/y")⟩ ∧
    fetchStorage (.node "osfstorage" [⟨"a.txt", "/a.txt", [1]⟩]
        (RForest.nil.app (.cons (.node "d\\e" [] RForest.nil) RForest.nil))) "out" none
      = ⟨(fetchFiles [⟨"a.txt", "/a.txt", [1]⟩] "out" none).lines
           ++ (fetchFolders RForest.nil "out" none).lines,
         (fetchFiles [⟨"a.txt", "/a.txt", [1]⟩] "out" none).writes
           ++ (fetchFolders RForest.nil "out" none).writes,
         some (.invalidName "d\\e")⟩ :=
  fetch_invalid_name_aborts "osfstorage" [⟨"a.txt", "/a.txt", [1]⟩] ⟨"x/y", "/x", [2]⟩
    [⟨"z.txt", "/z", [3]⟩] RForest.nil [⟨"a.txt", "/a.txt", [1]⟩] RForest.nil
    (.node "d\\e" [] RForest.nil) RForest.nil "out" none
    (by decide) (by decide) (by decide) (by decide) (by decide)

theorem fetchLine_startsWith (r lp o : String) :
    strStartsWith (fetchLine r lp o) "Fetch: " = true := by
  simp only [fetchLine, strStartsWith, String.data_append, List.append_assoc,
    List.isPrefixOf_iff_prefix]
  exact List.prefix_append _ _

theorem fetchFiles_shape (fs : List RFile) (out : String) (ld : Option String) :
    (fetchFiles fs out ld).lines.length = (fetchFiles fs out ld).writes.length ∧
    (fetchFiles fs out ld).lines.all (fun l => strStartsWith l "Fetch: ") = true := by
  induction fs with
  | nil => simp [fetchFiles]
  | cons f t ih =>
    by_cases hs : hasSep f.name = true
    · simp [fetchFiles, hs]
    · simp only [Bool.not_eq_true] at hs
      simp [fetchFiles, hs, ih, fetchLine_startsWith]

mutual
theorem fetchStorage_shape : ∀ (t : RTree) (out : String) (ld : Option String),
    (fetchStorage t out ld).lines.length = (fetchStorage t out ld).writes.length ∧
    (fetchStorage t out ld).lines.all (fun l => strStartsWith l "Fetch: ") = true
  | .node nm files subs, out, ld => by
    cases hfe : (fetchFiles files out ld).err with
    | some e => simpa [fetchStorage, hfe] using fetchFiles_shape files out ld
    | none =>
      have h1 := fetchFiles_shape files out ld
      have h2 := fetchFolders_shape subs out ld
      simp [fetchStorage, hfe, h1.1, h1.2, h2.1, h2.2]

theorem fetchFolders_shape : ∀ (f : RForest) (out : String) (ld : Option String),
    (fetchFolders f out ld).lines.length = (fetchFolders f out ld).writes.length ∧
    (fetchFolders f out ld).lines.all (fun l => strStartsWith l "Fetch: ") = true
  | .nil, out, ld => by simp [fetchFolders]
  | .cons t rest, out, ld => by
    by_cases hs : hasSep t.name = true
    · simp [fetchFolders, hs]
    · simp only [Bool.not_eq_true] at hs
      have h1 := fetchStorage_shape t out (some (joinOpt ld t.name))
      cases hr : (fetchStorage t out (some (joinOpt ld t.name))).err with
      | some e => simpa [fetchFolders, hs, hr] using h1
      | none =>
        have h2 := fetchFolders_shape rest out ld
        simp [fetchFolders, hs, hr, h1.1, h1.2, h2.1, h2.2]
end

theorem fetchStorages_shape (ss : List RTree) (out : String) :
    (fetchStorages ss out).lines.length = (fetchStorages ss out).writes.length ∧
    (fetchStorages ss out).lines.all (fun l => strStartsWith l "Fetch: ") = true := by
  induction ss with
  | nil => simp [fetchStorages]
  | cons s t ih =>
    have h1 := fetchStorage_shape s out (some s.name)
    cases hr : (fetchStorage s out (some s.name)).err with
    | some e => simpa [fetchStorages, hr] using h1
    | none => simp [fetchStorages, hr, h1.1, h1.2, ih.1, ih.2]

theorem fetchFiles_trace (fs : List RFile) (out : String) (ld : Option String) :
    ∃ ps : List (RFile × String),
      (fetchFiles fs out ld).lines = ps.map (fun p => fetchLine p.1.path p.2 out) ∧
      (fetchFiles fs out ld).writes
        = ps.map (fun p => (pathJoin out p.2, p.1.content)) := by
  induction fs with
  | nil => exact ⟨[], rfl, rfl⟩
  | cons f t ih =>
    by_cases hs : hasSep f.name = true
    · exact ⟨[], by simp [fetchFiles, hs], by simp [fetchFiles, hs]⟩
    · simp only [Bool.not_eq_true] at hs
      obtain ⟨ps, h1, h2⟩ := ih
      refine ⟨(f, joinOpt ld f.name) :: ps, ?_, ?_⟩
      · simp [fetchFiles, hs, h1]
      · simp [fetchFiles, hs, h2]

mutual
theorem fetchStorage_trace : ∀ (t : RTree) (out : String) (ld : Option String),
    ∃ ps : List (RFile × String),
      (fetchStorage t out ld).lines = ps.map (fun p => fetchLine p.1.path p.2 out) ∧
      (fetchStorage t out ld).writes
        = ps.map (fun p => (pathJoin out p.2, p.1.content))
  | .node nm files subs, out, ld => by
    obtain ⟨ps, h1, h2⟩ := fetchFiles_trace files out ld
    cases hfe : (fetchFiles files out ld).err with
    | some e =>
      exact ⟨ps, by simp [fetchStorage, hfe, h1], by simp [fetchStorage, hfe, h2]⟩
    | none =>
      obtain ⟨qs, g1, g2⟩ := fetchFolders_trace subs out ld
      exact ⟨ps ++ qs, by simp [fetchStorage, hfe, h1, g1],
        by simp [fetchStorage, hfe, h2, g2]⟩

theorem fetchFolders_trace : ∀ (f : RForest) (out : String) (ld : Option String),
    ∃ ps : List (RFile × String),
      (fetchFolders f out ld).lines = ps.map (fun p => fetchLine p.1.path p.2 out) ∧
      (fetchFolders f out ld).writes
        = ps.map (fun p => (pathJoin out p.2, p.1.content))
  | .nil, out, ld => ⟨[], rfl, rfl⟩
  | .cons t rest, out, ld => by
    by_cases hs : hasSep t.name = true
    · exact ⟨[], by simp [fetchFolders, hs], by simp [fetchFolders, hs]⟩
    · simp only [Bool.not_eq_true] at hs
      obtain ⟨ps, h1, h2⟩ := fetchStorage_trace t out (some (joinOpt ld t.name))
      cases hr : (fetchStorage t out (some (joinOpt ld t.name))).err with
      | some e =>
        exact ⟨ps, by simp [fetchFolders, hs, hr, h1], by simp [fetchFolders, hs, hr, h2]⟩
      | none =>
        obtain ⟨qs, g1, g2⟩ := fetchFolders_trace rest out ld
        exact ⟨ps ++ qs, by simp [fetchFolders, hs, hr, h1, g1],
          by simp [fetchFolders, hs, hr, h2, g2]⟩
end

theorem fetchStorages_trace (ss : List RTree) (out : String) :
    ∃ ps : List (RFile × String),
      (fetchStorages ss out).lines = ps.map (fun p => fetchLine p.1.path p.2 out) ∧
      (fetchStorages ss out).writes
        = ps.map (fun p => (pathJoin out p.2, p.1.content)) := by
  induction ss with
  | nil => exact ⟨[], rfl, rfl⟩
  | cons s t ih =>
    obtain ⟨ps, h1, h2⟩ := fetchStorage_trace s out (some s.name)
    cases hr : (fetchStorage s out (some s.name)).err with
    | some e =>
      exact ⟨ps, by simp [fetchStorages, hr, h1], by simp [fetchStorages, hr, h2]⟩
    | none =>
      obtain ⟨qs, g1, g2⟩ := ih
      exact ⟨ps ++ qs, by simp [fetchStorages, hr, h1, g1],
        by simp [fetchStorages, hr, h2, g2]⟩

/-- C9 (amended): every fetch's progress stream is exactly one header line
`"Fetching RDM directory {path} on {project_id} at {api}.\n"` — `{api}` being
the configured api value with a single trailing `/` removed — followed by one
line `"Fetch: {remotePath} ({localRelativePath} to {outputDir})\n"` per file
copied, in order: the i-th `Fetch:` line carries the remote path of the i-th
copied file, the local relative path that file was written to (its write
lands at `outputDir/localRelativePath` with that file's bytes), and the
output directory. -/
theorem fetch_progress_stream_shape (spec : DetectResult) (out : String)
    (remote : Remote) :
    ∃ ps : List (RFile × String),
      (rdmFetch spec out remote).lines
        = mkHeader spec.project_id spec.path spec.host
            :: ps.map (fun p => fetchLine p.1.path p.2 out) ∧
      (rdmFetch spec out remote).writes
        = ps.map (fun p => (pathJoin out p.2, p.1.content)) := by
  unfold rdmFetch
  split
  · exact ⟨[], rfl, rfl⟩
  · rename_i project hproj
    split
    · dsimp only
      split
      · exact ⟨[], rfl, rfl⟩
      · rename_i storage hstor
        split
        · split
          · exact ⟨[], rfl, rfl⟩
          · rename_i node hnode
            obtain ⟨ps, h1, h2⟩ := fetchStorage_trace node out none
            exact ⟨ps, by simp [h1], by simp [h2]⟩
        · obtain ⟨ps, h1, h2⟩ := fetchStorage_trace storage out none
          exact ⟨ps, by simp [h1], by simp [h2]⟩
    · obtain ⟨ps, h1, h2⟩ := fetchStorages_trace project.storages out
      exact ⟨ps, by simp [h1], by simp [h2]⟩

/-- C9 counterexample: with the configured api value `"https://x/v2/"` the
header line contains `"https://x/v2"`, not the configured value itself — the
trailing slash is stripped, so the header differs from the template built
from the configured api value. -/
theorem fetch_header_strips_api_slash :
    (rdmFetch ⟨"abc", "", ⟨["https://h/"], "https://x/v2/", none⟩, "u"⟩ "out"
        (fun _ => none)).lines
      = ["Fetching RDM directory  on abc at https://x/v2.\n"] ∧
    "Fetching RDM directory  on abc at https://x/v2.\n"
      ≠ "Fetching RDM directory  on abc at https://x/v2/.\n" :=
  ⟨rfl, by decide⟩

theorem pathJoin_assoc (a b c : String) :
    pathJoin (pathJoin a b) c = pathJoin a (pathJoin b c) := by
  apply String.ext
  simp [pathJoin, String.data_append]

theorem joinOpt_pathJoin (ld : Option String) (n q : String) :
    pathJoin (joinOpt ld n) q = joinOpt ld (pathJoin n q) := by
  cases ld <;> simp [joinOpt, pathJoin_assoc]

theorem fetchFiles_writes_paths (fs : List RFile) (out : String) (ld : Option String)
    (h : (fetchFiles fs out ld).err = none) :
    (fetchFiles fs out ld).writes.map Prod.fst
      = (fs.map (fun f => f.name)).map (fun q => pathJoin out (joinOpt ld q)) := by
  induction fs with
  | nil => simp [fetchFiles]
  | cons f t ih =>
    by_cases hs : hasSep f.name = true
    · simp [fetchFiles, hs] at h
    · simp only [Bool.not_eq_true] at hs
      simp only [fetchFiles, hs] at h ⊢
      simp [ih h]

mutual
theorem fetchStorage_writes_paths : ∀ (t : RTree) (out : String) (ld : Option String),
    (fetchStorage t out ld).err = none →
    (fetchStorage t out ld).writes.map Prod.fst
      = (relPaths t).map (fun q => pathJoin out (joinOpt ld q))
  | .node nm files subs, out, ld, h => by
    cases hfe : (fetchFiles files out ld).err with
    | some e => simp [fetchStorage, hfe] at h
    | none =>
      have hse : (fetchFolders subs out ld).err = none := by
        simpa [fetchStorage, hfe] using h
      simp [fetchStorage, hfe, relPaths, fetchFiles_writes_paths files out ld hfe,
        fetchFolders_writes_paths subs out ld hse]

theorem fetchFolders_writes_paths : ∀ (f : RForest) (out : String) (ld : Option String),
    (fetchFolders f out ld).err = none →
    (fetchFolders f out ld).writes.map Prod.fst
      = (relPathsF f).map (fun q => pathJoin out (joinOpt ld q))
  | .nil, out, ld, _ => by simp [fetchFolders, relPathsF]
  | .cons t rest, out, ld, h => by
    obtain ⟨hs, hr, hrest⟩ := fetchFolders_err_none t rest out ld h
    have h1 := fetchStorage_writes_paths t out (some (joinOpt ld t.name)) hr
    have h2 := fetchFolders_writes_paths rest out ld hrest
    simp only [fetchFolders, hs, Bool.false_eq_true, if_false, hr]
    simp only [List.map_append, h1, h2, relPathsF, List.map_map]
    congr 1
    apply List.map_congr_left
    intro q _
    show pathJoin out (joinOpt (some (joinOpt ld t.name)) q)
      = pathJoin out (joinOpt ld (pathJoin t.name q))
    have hj : joinOpt (some (joinOpt ld t.name)) q = pathJoin (joinOpt ld t.name) q := rfl
    rw [hj, joinOpt_pathJoin]
end

/-- C10: with a non-empty sub-path the resolved node is walked with an empty
local directory, so the local paths of the written files are exactly the
node's own relative paths joined onto the output directory: files at the
resolved root land at `out/<fileName>`, nested ones at `out/<folderName>/...`,
with neither the storage name nor any sub-path segment prefixed. -/
theorem fetch_subpath_local_paths (spec : DetectResult) (out : String)
    (remote : Remote) (project : Project)
    (hp : remote spec.project_id = some project)
    (hlen : spec.path.length ≠ 0) :
    (∀ storage node,
      strContains (rstripSlash spec.path) '/' = true →
      findStorage project (beforeFirstSlash (rstripSlash spec.path)) = some storage →
      findByPath storage (afterFirstSlash (rstripSlash spec.path)) = some node →
      (fetchStorage node out none).err = none →
      (rdmFetch spec out remote).writes.map Prod.fst
        = (relPaths node).map (fun q => pathJoin out q)) ∧
    (∀ storage,
      strContains (rstripSlash spec.path) '/' = false →
      findStorage project (rstripSlash spec.path) = some storage →
      (fetchStorage storage out none).err = none →
      (rdmFetch spec out remote).writes.map Prod.fst
        = (relPaths storage).map (fun q => pathJoin out q)) := by
  constructor
  · intro storage node hslash hstor hpath herr
    have h1 := fetchStorage_writes_paths node out none herr
    simp only [rdmFetch, hp, hslash, hstor, hpath, if_true, ite_true]
    rw [if_pos hlen]
    simpa [joinOpt] using h1
  · intro storage hslash hstor herr
    have h1 := fetchStorage_writes_paths storage out none herr
    simp only [rdmFetch, hp, hslash, hstor, Bool.false_eq_true, if_false, ite_false]
    rw [if_pos hlen]
    simpa [joinOpt] using h1

/-- Witness for C10: sub-paths `osfstorage/dir` and `osfstorage` of a
concrete project; the written paths carry no storage or sub-path prefix. -/
theorem fetch_subpath_local_paths_witness :
    (rdmFetch ⟨"abc", "osfstorage/dir", ⟨["https://h/"], "https://api.h/v2/", none⟩, "u"⟩
        "out" (fun pid => if pid = "abc" then
          some ⟨[RTree.node "osfstorage" []
            (RForest.cons (RTree.node "dir" [⟨"b.txt", "/dir/b.txt", [3]⟩] RForest.nil)
              RForest.nil)]⟩ else none)).writes.map Prod.fst
      = (relPaths (RTree.node "dir" [⟨"b.txt", "/dir/b.txt", [3]⟩] RForest.nil)).map
          (fun q => pathJoin "out" q) ∧
    (rdmFetch ⟨"abc", "osfstorage", ⟨["https://h/"], "https://api.h/v2/", none⟩, "u"⟩
        "out" (fun pid => if pid = "abc" then
          some ⟨[RTree.node "osfstorage" [⟨"a.txt", "/a.txt", [1]⟩] RForest.nil]⟩
          else none)).writes.map Prod.fst
      = (relPaths (RTree.node "osfstorage" [⟨"a.txt", "/a.txt", [1]⟩] RForest.nil)).map
          (fun q => pathJoin "out" q) :=
  ⟨(fetch_subpath_local_paths _ "out" _ ⟨[RTree.node "osfstorage" []
        (RForest.cons (RTree.node "dir" [⟨"b.txt", "/dir/b.txt", [3]⟩] RForest.nil)
          RForest.nil)]⟩ rfl (by decide)).1
      (RTree.node "osfstorage" []
        (RForest.cons (RTree.node "dir" [⟨"b.txt", "/dir/b.txt", [3]⟩] RForest.nil)
          RForest.nil))
      (RTree.node "dir" [⟨"b.txt", "/dir/b.txt", [3]⟩] RForest.nil)
      (by decide) (by decide) (by decide) (by decide),
    (fetch_subpath_local_paths _ "out" _ ⟨[RTree.node "osfstorage"
        [⟨"a.txt", "/a.txt", [1]⟩] RForest.nil]⟩ rfl (by decide)).2
      (RTree.node "osfstorage" [⟨"a.txt", "/a.txt", [1]⟩] RForest.nil)
      (by decide) (by decide) (by decide)⟩

theorem neSlash_eq_true (c : Char) (hc : ¬ ('/' : Char) = c) : neSlash c = true := by
  simp [neSlash]
  exact fun e => hc e.symm

theorem neSlash_slash : neSlash '/' = false := rfl

theorem takeWhile_until_slash (l r : List Char) (h : ('/' : Char) ∉ l) :
    (l ++ '/' :: r).takeWhile neSlash = l := by
  induction l with
  | nil => simp [neSlash_slash]
  | cons c cs ih =>
    simp only [List.mem_cons, not_or] at h
    rw [List.cons_append, List.takeWhile_cons_of_pos (neSlash_eq_true c h.1), ih h.2]

theorem dropWhile_until_slash (l r : List Char) (h : ('/' : Char) ∉ l) :
    (l ++ '/' :: r).dropWhile neSlash = '/' :: r := by
  induction l with
  | nil => simp [neSlash_slash]
  | cons c cs ih =>
    simp only [List.mem_cons, not_or] at h
    rw [List.cons_append, List.dropWhile_cons_of_pos (neSlash_eq_true c h.1), ih h.2]

theorem isPrefixOf_slash_false (l : List Char) (h : ('/' : Char) ∉ l) :
    (['/'] : List Char).isPrefixOf l = false := by
  cases l with
  | nil => rfl
  | cons c cs =>
    simp only [List.mem_cons, not_or] at h
    simp [List.isPrefixOf]
    exact h.1

theorem isPrefixOf_slash_cons (c : Char) (l : List Char) (hc : c ≠ '/') :
    (['/'] : List Char).isPrefixOf (c :: l) = false := by
  simp [List.isPrefixOf]
  exact fun e => hc e.symm

theorem parsePath_split (c : Char) (cs subl : List Char) (h : ('/' : Char) ∉ c :: cs) :
    parsePath (String.mk (c :: (cs ++ '/' :: subl)))
      = (String.mk (c :: cs),
         if ("files/" : String).data.isPrefixOf subl
         then String.mk (subl.drop 6) else String.mk subl) := by
  have hc : c ≠ '/' := fun e => h (by simp [e])
  have h1 : strStartsWith (String.mk (c :: (cs ++ '/' :: subl))) "/" = false := by
    show (['/'] : List Char).isPrefixOf (c :: (cs ++ '/' :: subl)) = false
    exact isPrefixOf_slash_cons c _ hc
  have h2 : strContains (String.mk (c :: (cs ++ '/' :: subl))) '/' = true := by
    simp [strContains]
  have h3 : beforeFirstSlash (String.mk (c :: (cs ++ '/' :: subl)))
      = String.mk (c :: cs) := by
    show String.mk (((c :: cs) ++ '/' :: subl).takeWhile neSlash)
      = String.mk (c :: cs)
    rw [takeWhile_until_slash _ _ h]
  have h4 : afterFirstSlash (String.mk (c :: (cs ++ '/' :: subl)))
      = String.mk subl := by
    show String.mk ((((c :: cs) ++ '/' :: subl).dropWhile neSlash).drop 1)
      = String.mk subl
    rw [dropWhile_until_slash _ _ h]
    rfl
  simp only [parsePath, h1, h2, h3, h4, Bool.false_eq_true, if_false, if_true]
  rfl

/-- C3: for a matched source, the URL path is parsed as follows — with no
`/` (after the optional leading slash) the whole path is the project id and
the sub-path is empty; otherwise the part before the first `/` is the project
id and the rest is the sub-path, with one leading literal `files/` segment
stripped, so `<id>/files/<rest>` yields sub-path exactly `<rest>`. -/
theorem detect_parse (id rest sub source : String) (host : Host) (hs : List Host)
    (ref : Option String) (fresh : String)
    (hne : id ≠ "") (hnosl : strContains id '/' = false) :
    parsePath id = (id, "") ∧
    parsePath ("/" ++ id) = (id, "") ∧
    parsePath (id ++ "/files/" ++ rest) = (id, rest) ∧
    (strStartsWith sub "files/" = false → parsePath (id ++ "/" ++ sub) = (id, sub)) ∧
    (host.hostname.any (fun s => strStartsWith source s) = true →
      detect (host :: hs) source (id ++ "/files/" ++ rest) ref fresh
        = some ⟨id, rest, host, sessionId ref fresh⟩) := by
  have hmem : ('/' : Char) ∉ id.data := by
    simpa [strContains] using hnosl
  obtain ⟨l⟩ := id
  cases l with
  | nil => exact absurd rfl hne
  | cons c cs =>
  have hc : c ≠ '/' := fun e => hmem (by simp [e])
  have hstart : strStartsWith (String.mk (c :: cs)) "/" = false :=
    isPrefixOf_slash_cons c cs hc
  have hsplit3 := parsePath_split c cs ('f' :: 'i' :: 'l' :: 'e' :: 's' :: '/' :: rest.data) hmem
  have hsplit4 := parsePath_split c cs sub.data hmem
  have hc1 : parsePath (String.mk (c :: cs)) = (String.mk (c :: cs), "") := by
    simp only [parsePath, hstart, hnosl, Bool.false_eq_true, if_false, ite_false]
  have hc3 : parsePath (String.mk (c :: cs) ++ "/files/" ++ rest)
      = (String.mk (c :: cs), rest) := by
    have e3 : String.mk (c :: cs) ++ "/files/" ++ rest
        = String.mk (c :: (cs ++ '/' :: ('f' :: 'i' :: 'l' :: 'e' :: 's' :: '/' :: rest.data))) := by
      apply String.ext
      simp only [String.data_append, List.append_assoc]
      rfl
    rw [e3, hsplit3]
    have hpre : (("files/" : String).data.isPrefixOf
        ('f' :: 'i' :: 'l' :: 'e' :: 's' :: '/' :: rest.data)) = true := by
      simp [List.isPrefixOf]
    rw [if_pos hpre]
    rfl
  refine ⟨hc1, ?_, hc3, ?_, ?_⟩
  · have hstart2 : strStartsWith ("/" ++ String.mk (c :: cs)) "/" = true := rfl
    have hdrop : strDrop ("/" ++ String.mk (c :: cs)) 1 = String.mk (c :: cs) := rfl
    simp only [parsePath, hstart2, if_true, ite_true, hdrop, hnosl,
      Bool.false_eq_true, if_false, ite_false]
  · intro hsub
    have e4 : String.mk (c :: cs) ++ "/" ++ sub
        = String.mk (c :: (cs ++ '/' :: sub.data)) := by
      apply String.ext
      simp only [String.data_append, List.append_assoc]
      rfl
    rw [e4, hsplit4]
    have hpre : (("files/" : String).data.isPrefixOf sub.data) = false := hsub
    rw [if_neg (by simp [hpre])]
  · intro hmatch
    simp only [detect, hmatch, if_true, ite_true, hc3]

/-- Witness for C3 at concrete inputs, including one with a second `files/`
segment kept and one with a multi-segment remainder. -/
theorem detect_parse_witness :
    parsePath "abc" = ("abc", "") ∧
    parsePath ("/" ++ "abc") = ("abc", "") ∧
    parsePath ("abc" ++ "/files/" ++ "dir/b.txt") = ("abc", "dir/b.txt") ∧
    parsePath ("abc" ++ "/" ++ "x/y") = ("abc", "x/y") ∧
    detect [⟨["https://h/"], "https://api.h/v2/", none⟩] "https://h/abc/files/dir"
        ("abc" ++ "/files/" ++ "dir/b.txt") (some "v1") "u"
      = some ⟨"abc", "dir/b.txt", ⟨["https://h/"], "https://api.h/v2/", none⟩,
          sessionId (some "v1") "u"⟩ := by
  obtain ⟨h1, h2, h3, h4, h5⟩ :=
    detect_parse "abc" "dir/b.txt" "x/y" "https://h/abc/files/dir"
      ⟨["https://h/"], "https://api.h/v2/", none⟩ [] (some "v1") "u"
      (by decide) (by decide)
  exact ⟨h1, h2, h3, h4 (by decide), h5 (by decide)⟩

end RDM
